import Mathlib

/-!
Verification development for the COMETSC hypergeometric marker-detection
engine (package `hgmd`: files `hgmd/hgmd.py` and `hgmd/__main__.py`).

Modelling conventions:
* expression values and statistics are rationals (`ℚ`);
* pandas DataFrames are lists of records, one record per row;
* `pandas.sort_values` is modelled by the stable `List.insertionSort`;
* `numpy.searchsorted` on a sorted list is the length of the strict prefix
  below the query;
* external library calls (`xlmhg.xlmhg_test`, `scipy.stats.ttest_ind`) are
  oracle parameters of the embedded functions.
-/

namespace HGMD

/-- A cluster label (the cluster column of the cell data). -/
abbrev Label := Int

/-- `numpy.searchsorted(a, x, side=left)` for a list `a` sorted ascending:
the first insertion index keeping the list sorted, i.e. the length of the
prefix of entries strictly below the query. -/
def searchsorted_left (a : List ℚ) (x : ℚ) : Nat :=
  (a.takeWhile (fun v => decide (v < x))).length

/-- The cutoff slide of `singleton_test` (hgmd.py lines 131-133):
`np.searchsorted(-exp[gene].values, -mHG_cutoff_value, side=left)`.
The expression column is sorted descending, so the column and the query are
both negated to make ascending `searchsorted` applicable. -/
def mhg_slide (e : List ℚ) (c : ℚ) : Nat :=
  searchsorted_left (e.map (fun v => -v)) (-c)

/-- The cell data consumed by `singleton_test` and `pair_test` (format of
`get_cell_data`): per-cell cluster labels, the two tSNE columns, then one
expression column per gene (`cells.columns[3:]`), all aligned by cell. -/
structure CellTable where
  cluster : List Label
  tSNE_1 : List ℚ
  tSNE_2 : List ℚ
  genes : List (String × List ℚ)
deriving DecidableEq

/-- One row of the `singleton_test` output table (hgmd.py lines 105-108 and
138-146), before the rank column is joined. -/
structure TestRow where
  gene : String
  HG_stat : ℚ
  mHG_pval : ℚ
  mHG_cutoff_index : Nat
  mHG_cutoff_value : ℚ
  t_stat : ℚ
  t_pval : ℚ
deriving DecidableEq

/-- `pandas.Series.rank()` with its default average method: the rank of an
entry is the mean of the 1-based positions occupied by entries of its value,
i.e. (count of strictly smaller entries) + (count of equal entries + 1)/2. -/
def pandas_rank (l : List ℚ) (v : ℚ) : ℚ :=
  (l.countP (fun w => decide (w < v)) : ℚ)
    + ((l.countP (fun w => decide (w = v)) : ℚ) + 1) / 2

/-- Per-gene body of the `singleton_test` loop (hgmd.py lines 109-147): sort
cluster and expression columns by expression descending, build the 0/1
membership vector, run the XL-mHG test (`xlmhg.xlmhg_test`, an oracle
parameter), read the raw cutoff value, slide the cutoff index, split into
in-cluster sample and rest population and run the t-test
(`scipy.stats.ttest_ind`, an oracle parameter). -/
def singleton_gene_row
    (xl_test : List Nat → Int → Int → ℚ × Nat × ℚ)
    (t_test : List ℚ → List ℚ → ℚ × ℚ)
    (clusterCol : List Label) (cl : Label) (X L : Int)
    (g : String × List ℚ) : TestRow :=
  let rows := clusterCol.zip g.2
  let sorted := List.insertionSort (fun a b : Label × ℚ => a.2 ≥ b.2) rows
  let v := sorted.map (fun r => if r.1 = cl then 1 else 0)
  let res := xl_test v X L
  let cutoff_value := (sorted.map Prod.snd).getD res.2.1 0
  let slid := mhg_slide (sorted.map Prod.snd) cutoff_value
  let sample := (sorted.filter (fun r => decide (r.1 = cl))).map Prod.snd
  let popul := (sorted.filter (fun r => ! decide (r.1 = cl))).map Prod.snd
  let tres := t_test sample popul
  { gene := g.1, HG_stat := res.1, mHG_pval := res.2.2,
    mHG_cutoff_index := slid, mHG_cutoff_value := cutoff_value,
    t_stat := tres.1, t_pval := tres.2 }

/-- `singleton_test` (hgmd.py lines 53-154), in `Except` form to expose its
error behaviour: one `TestRow` per gene column, then the rank column
`HG_rank + t_rank` (lines 149-151, pandas average ranks of the two p-value
columns), finally sorted ascending by rank (line 153).  The source body
contains no validation and no raise statement (see the module-level TODO
`Raise some exceptions!`), so no branch of the embedding produces
`Except.error`. -/
def singleton_test
    (xl_test : List Nat → Int → Int → ℚ × Nat × ℚ)
    (t_test : List ℚ → List ℚ → ℚ × ℚ)
    (cells : CellTable) (cl : Label) (X L : Int) :
    Except String (List (TestRow × ℚ)) :=
  let rows := cells.genes.map (singleton_gene_row xl_test t_test cells.cluster cl X L)
  let ranked := rows.map (fun r =>
    (r, pandas_rank (rows.map TestRow.mHG_pval) r.mHG_pval
        + pandas_rank (rows.map TestRow.t_pval) r.t_pval))
  .ok (List.insertionSort (fun a b : TestRow × ℚ => a.2 ≤ b.2) ranked)

/-- One row of the table `pair_test` is documented to return (hgmd.py lines
178-184): the two genes of the pair and the HG test statistic of the cells
expressing both. -/
structure PairTestRow where
  gene : String
  gene_B : String
  HG_stat : ℚ
deriving DecidableEq

/-- `pair_test` (hgmd.py lines 157-192): after the docstring, the entire
body is `return pd.DataFrame()`: the returned table is empty whatever the
inputs are. -/
def pair_test (cells : CellTable) (singleton : List (TestRow × ℚ))
    (cluster : Label) (min_exp : ℚ) : List PairTestRow :=
  []

/-- `find_TP_TN` (hgmd.py lines 195-220): the entire body is `pass`, so the
call returns `None` and assigns nothing to any argument.  Modelled in
state-passing style: the result is the `None` value together with the three
argument tables exactly as they came in. -/
def find_TP_TN (cells : CellTable) (singleton : List (TestRow × ℚ))
    (pair : List PairTestRow) (cluster : Label) :
    Option Unit × CellTable × List (TestRow × ℚ) × List PairTestRow :=
  (none, cells, singleton, pair)

/-- One row of the per-cluster singleton table assembled in `process`
(`__main__.py` lines 387-393), restricted to the columns its final ranking
reads: the gene and the merged mHG statistic and fold-change columns. -/
structure SingRecord where
  gene_1 : String
  mHG_stat : ℚ
  Log2FoldChange : ℚ
deriving DecidableEq

/-- A singleton row with the rank columns `process` appends: `hgrank`,
`fcrank`, the combined score `finrank` and the final integer `rank`
(`__main__.py` lines 395-401; the source drops the helper `finrank` column
after use, the embedding keeps it visible). -/
structure RankedSing where
  row : SingRecord
  hgrank : Nat
  fcrank : Nat
  finrank : ℚ
  rank : Nat
deriving DecidableEq

/-- Ascending order on the mHG statistic column (`sort_values(by=mHG_stat,
ascending=True)`, `__main__.py` line 393). -/
def singLe (a b : SingRecord) : Prop := a.mHG_stat ≤ b.mHG_stat

instance : DecidableRel singLe :=
  fun a b => inferInstanceAs (Decidable (a.mHG_stat ≤ b.mHG_stat))

instance : IsTotal SingRecord singLe := ⟨fun a b => le_total a.mHG_stat b.mHG_stat⟩

instance : IsTrans SingRecord singLe := ⟨fun _ _ _ hab hbc => le_trans hab hbc⟩

/-- Descending order on the fold-change column (`sort_values`
`(by=Log2FoldChange, ascending=False)`, `__main__.py` line 396), on rows
already carrying their `hgrank`. -/
def fcGe (a b : SingRecord × Nat) : Prop :=
  b.1.Log2FoldChange ≤ a.1.Log2FoldChange

instance : DecidableRel fcGe :=
  fun a b => inferInstanceAs (Decidable (b.1.Log2FoldChange ≤ a.1.Log2FoldChange))

instance : IsTotal (SingRecord × Nat) fcGe :=
  ⟨fun a b => le_total b.1.Log2FoldChange a.1.Log2FoldChange⟩

instance : IsTrans (SingRecord × Nat) fcGe := ⟨fun _ _ _ hab hbc => le_trans hbc hab⟩

/-- Ascending order on the combined score (`sort_values(by=finrank,
ascending=True)`, `__main__.py` line 399). -/
def finLe (a b : RankedSing) : Prop := a.finrank ≤ b.finrank

instance : DecidableRel finLe :=
  fun a b => inferInstanceAs (Decidable (a.finrank ≤ b.finrank))

instance : IsTotal RankedSing finLe := ⟨fun a b => le_total a.finrank b.finrank⟩

instance : IsTrans RankedSing finLe := ⟨fun _ _ _ hab hbc => le_trans hab hbc⟩

/-- `__main__.py` lines 393-395: sort the singleton table ascending by mHG
statistic and attach the 1-based row position as `hgrank`. -/
def sing_hg_ranked (t : List SingRecord) : List (SingRecord × Nat) :=
  (List.insertionSort singLe t).enum.map (fun p => (p.2, p.1 + 1))

/-- `__main__.py` lines 396-397: re-sort descending by fold change and
attach the 1-based row position as `fcrank`. -/
def sing_fc_ranked (t : List SingRecord) : List (SingRecord × Nat × Nat) :=
  (List.insertionSort fcGe (sing_hg_ranked t)).enum.map
    (fun p => (p.2.1, p.2.2, p.1 + 1))

/-- `__main__.py` line 398: `finrank = mean(hgrank, fcrank)`. -/
def sing_fin (t : List SingRecord) : List RankedSing :=
  (sing_fc_ranked t).map (fun q =>
    { row := q.1, hgrank := q.2.1, fcrank := q.2.2,
      finrank := ((q.2.1 : ℚ) + (q.2.2 : ℚ)) / 2, rank := 0 })

/-- `__main__.py` lines 399-400: sort ascending by the combined score and
attach the 1-based row position as the final integer `rank` column. -/
def sing_ranked (t : List SingRecord) : List RankedSing :=
  (List.insertionSort finLe (sing_fin t)).enum.map
    (fun p => { p.2 with rank := p.1 + 1 })

/-- One row of the pair table `process` receives from the hypergeometric
pair test and then orders (`__main__.py` lines 315-328): the canonical gene
pair with its hypergeometric statistic and p-value. -/
structure PairHG where
  gene_1 : String
  gene_2 : String
  HG_stat : ℚ
  HG_pval : ℚ
deriving DecidableEq

/-- Ascending order on the hypergeometric p-value column
(`sort_values(by=HG_pval, ascending=True)`, `__main__.py` lines 325-326). -/
def pairLe (a b : PairHG) : Prop := a.HG_pval ≤ b.HG_pval

instance : DecidableRel pairLe :=
  fun a b => inferInstanceAs (Decidable (a.HG_pval ≤ b.HG_pval))

instance : IsTotal PairHG pairLe := ⟨fun a b => le_total a.HG_pval b.HG_pval⟩

instance : IsTrans PairHG pairLe := ⟨fun _ _ _ hab hbc => le_trans hab hbc⟩

/-- The final pair ordering of `process` (`__main__.py` lines 325-328) with
the row order fixed to the stable `insertionSort`: one definite conforming
outcome of the library sort (see `sort_values_pairs_contract`; the library
sort is not stable, so tied rows need not come out in this order), used for
the rank and trim properties, which do not depend on the order of tied
rows. -/
def pair_ranked (t : List PairHG) : List (PairHG × Nat) :=
  ((List.insertionSort pairLe t).enum).map (fun p => (p.2, p.1 + 1))

/-- What `pair.sort_values(by=HG_pval, ascending=True)` (`__main__.py` lines
325-326) guarantees of its output.  pandas' default sort kind is quicksort,
documented as not stable: the output is ascending in the key and is a
permutation of the input rows, and nothing more — the relative order of
rows with equal p-values is implementation-defined inside the library, not
the insertion order of the rows. -/
def sort_values_pairs_contract (s : List PairHG → List PairHG)
    (t : List PairHG) : Prop :=
  List.Sorted pairLe (s t) ∧ (s t).Perm t

/-- `rank = reset_index().index + 1` (`__main__.py` line 328) applied to
whatever row order the library sort returned: the 1-based row position
becomes the integer rank column. -/
def pair_ranked_with (s : List PairHG → List PairHG) (t : List PairHG) :
    List (PairHG × Nat) :=
  ((s t).enum).map (fun p => (p.2, p.1 + 1))

/-- `DataFrame.head(Trim)` as used on every ranked output table
(`__main__.py` lines 329, 419, 430, 440): keep the first `n` rows. -/
def head_trim {α : Type} (n : Nat) (t : List α) : List α :=
  t.take n

/-- Resolution of the `-Trim` option (`__main__.py` lines 534-537 with the
argparse default at lines 66-69): a missing value defaults to 2000. -/
def resolve_trim (t : Option Int) : Int :=
  match t with
  | some v => v
  | none => 2000

/-- Resolution of the `-K` option (`__main__.py` lines 548-554): a missing
K defaults to 2, and a K above 4 is clamped to 4; every other supplied value
passes through unchanged. -/
def resolve_K (k : Option Int) : Int :=
  match k with
  | none => 2
  | some v => if 4 < v then 4 else v

/-- One row of the per-cluster XL-mHG singleton table used by the
abbreviation block of `process` (`__main__.py` lines 238-258), restricted to
the columns that block reads. -/
structure XRow where
  gene_1 : String
  mHG_stat : ℚ
  mHG_pval : ℚ
deriving DecidableEq

/-- Ascending order on the mHG statistic column (`__main__.py` lines
245-246). -/
def xlLe (a b : XRow) : Prop := a.mHG_stat ≤ b.mHG_stat

instance : DecidableRel xlLe :=
  fun a b => inferInstanceAs (Decidable (a.mHG_stat ≤ b.mHG_stat))

instance : IsTotal XRow xlLe := ⟨fun a b => le_total a.mHG_stat b.mHG_stat⟩

instance : IsTrans XRow xlLe := ⟨fun _ _ _ hab hbc => le_trans hab hbc⟩

/-- The XL-mHG singleton table as sorted in `process` (`__main__.py` lines
245-246) just before the abbreviation block. -/
def xl_sorted (t : List XRow) : List XRow :=
  List.insertionSort xlLe t

/-- The abbreviation block of `process` (`__main__.py` lines 248-261): when
an abbreviation was requested (`len(abbrev) > 0`), walk the sorted singleton
table collecting `gene_1` of each row and stop after 150 rows; otherwise
there is no candidate list (`trips_list = None`). -/
def trips_list (abbrev_arg : List String) (xl : List XRow) : Option (List String) :=
  if 0 < abbrev_arg.length then some (((xl_sorted xl).map XRow.gene_1).take 150)
  else none

/-- Modelled from the spec: the size-3/size-4 Combination Enumerator.  The
functions `process` calls for it (`hgmd.discrete_exp`,
`hgmd.combination_product`, `quads.combination_product`) are not under
`src/`; per spec section 4.3 the Enumerator generates canonical k-tuples
(gene order strictly increasing, no repetition) drawn from the candidate
gene list it is given.  A canonical k-tuple is modelled as a length-k
sublist of the candidate list. -/
def combination_product (k : Nat) (candidates : List String) : List (List String) :=
  List.sublistsLen k candidates

/-- A 150-row singleton table used as a concrete input in witnesses. -/
def xl_example : List XRow :=
  (List.range 150).map (fun n => { gene_1 := "", mHG_stat := n, mHG_pval := n })

/-- A concrete pair table with a p-value tie, used in witnesses. -/
def pair_example : List PairHG :=
  [⟨"A", "B", 5, 5⟩, ⟨"C", "D", 3, 3⟩, ⟨"E", "F", 3, 3⟩]

/-- A concrete three-gene singleton table used in witnesses. -/
def sing_example : List SingRecord :=
  [⟨"G1", 1, 5⟩, ⟨"G2", 3, 9⟩, ⟨"G3", 2, 1⟩]

/-- A concrete cell table whose clusters are 0 and 1 only, used as an
invalid input (cluster of interest 99 absent, X negative, L below X). -/
def badCells : CellTable :=
  { cluster := [0, 0, 1], tSNE_1 := [0, 0, 0], tSNE_2 := [0, 0, 0],
    genes := [("GENEA", [1, 2, 3])] }

theorem mhg_slide_eq_takeWhile (e : List ℚ) (c : ℚ) :
    mhg_slide e c = (e.takeWhile (fun v => decide (c < v))).length := by
  unfold mhg_slide searchsorted_left
  rw [List.takeWhile_map, List.length_map]
  congr 2
  funext v
  simp [neg_lt_neg_iff]

theorem length_takeWhile_gt_of_sorted (c : ℚ) :
    ∀ (l : List ℚ), l.Sorted (· ≥ ·) →
      (l.takeWhile (fun v => decide (c < v))).length
        = l.countP (fun v => decide (c < v))
  | [], _ => rfl
  | a :: t, h => by
    rcases List.sorted_cons.mp h with ⟨ha, ht⟩
    by_cases hca : c < a
    · simp [List.takeWhile_cons, List.countP_cons, hca,
        length_takeWhile_gt_of_sorted c t ht]
    · have hd : ¬ (decide (c < a) = true) := by simpa using hca
      simp only [List.takeWhile_cons, List.countP_cons, if_neg hd,
        List.length_nil, add_zero]
      symm
      rw [List.countP_eq_zero]
      intro v hv
      simp only [decide_eq_true_eq, not_lt]
      exact le_trans (ha v hv) (not_lt.mp hca)

theorem takeWhile_gt_boundary (c : ℚ) :
    ∀ (l : List ℚ), l.Sorted (· ≥ ·) → ∀ j (hj : j < l.length),
      (j < (l.takeWhile (fun v => decide (c < v))).length ↔ c < l.get ⟨j, hj⟩)
  | [], _, j, hj => absurd hj (Nat.not_lt_zero j)
  | a :: t, h, j, hj => by
    rcases List.sorted_cons.mp h with ⟨ha, ht⟩
    by_cases hca : c < a
    · have hd : decide (c < a) = true := by simpa using hca
      simp only [List.takeWhile_cons, if_pos hd, List.length_cons]
      cases j with
      | zero => simpa using hca
      | succ k =>
          have hk : k < t.length := Nat.lt_of_succ_lt_succ hj
          simpa [Nat.succ_lt_succ_iff] using
            takeWhile_gt_boundary c t ht k hk
    · have hd : ¬ (decide (c < a) = true) := by simpa using hca
      simp only [List.takeWhile_cons, if_neg hd, List.length_nil,
        Nat.not_lt_zero, false_iff]
      cases j with
      | zero => simpa using hca
      | succ k =>
          have hk : k < t.length := Nat.lt_of_succ_lt_succ hj
          simp only [List.get_cons_succ]
          intro hc
          exact hca (lt_of_lt_of_le hc (ha _ (t.get_mem k hk)))

/-- Claim C2: after the XL-mHG test returns a raw cutoff index, the slide
step of `singleton_test` moves it to the position where the descending-sorted
expression value actually changes: the slid index never exceeds the raw
index, still holds the cutoff value, equals the count of entries strictly
above the cutoff value (hence depends only on the multiset of values, not on
how ties were ordered upstream), and the derived binary expressed call
`position < slid index` holds exactly for cells whose expression value is
strictly above the cutoff value. -/
theorem slide_to_value_change (e : List ℚ) (hs : e.Sorted (· ≥ ·))
    (i : Nat) (hi : i < e.length) :
    mhg_slide e (e.get ⟨i, hi⟩) ≤ i ∧
    mhg_slide e (e.get ⟨i, hi⟩) = e.countP (fun v => decide (e.get ⟨i, hi⟩ < v)) ∧
    (∃ h : mhg_slide e (e.get ⟨i, hi⟩) < e.length,
      e.get ⟨mhg_slide e (e.get ⟨i, hi⟩), h⟩ = e.get ⟨i, hi⟩) ∧
    (∀ j (hj : j < e.length),
      (j < mhg_slide e (e.get ⟨i, hi⟩) ↔ e.get ⟨i, hi⟩ < e.get ⟨j, hj⟩)) := by
  set c := e.get ⟨i, hi⟩ with hc
  have hbound : ∀ j (hj : j < e.length),
      (j < mhg_slide e c ↔ c < e.get ⟨j, hj⟩) := by
    intro j hj
    rw [mhg_slide_eq_takeWhile]
    exact takeWhile_gt_boundary c e hs j hj
  have hle : mhg_slide e c ≤ i := by
    by_contra hlt
    exact lt_irrefl c ((hbound i hi).mp (not_le.mp hlt))
  have hlen : mhg_slide e c < e.length := lt_of_le_of_lt hle hi
  refine ⟨hle, ?_, ⟨hlen, ?_⟩, hbound⟩
  · rw [mhg_slide_eq_takeWhile]
    exact length_takeWhile_gt_of_sorted c e hs
  · have h1 : ¬ c < e.get ⟨mhg_slide e c, hlen⟩ := by
      intro hcl
      exact lt_irrefl (mhg_slide e c) ((hbound _ hlen).mpr hcl)
    have h2 : e.get ⟨mhg_slide e c, hlen⟩ ≥ c := by
      have := List.Sorted.rel_get_of_le hs
        (a := ⟨mhg_slide e c, hlen⟩) (b := ⟨i, hi⟩) hle
      exact this
    exact le_antisymm (not_lt.mp h1) h2

/-- Witness for C2 on the docstring example `[53, 12, 0, 0, 0, 0]` (the docstring example scaled by ten) with raw
cutoff index 4: the slid index is 2, at most the raw index, and it still
holds the cutoff value 0. -/
theorem slide_to_value_change_witness :
    mhg_slide [(53 : ℚ), 12, 0, 0, 0, 0]
      (([(53 : ℚ), 12, 0, 0, 0, 0]).get ⟨4, by decide⟩) ≤ 4 ∧
    mhg_slide [(53 : ℚ), 12, 0, 0, 0, 0]
      (([(53 : ℚ), 12, 0, 0, 0, 0]).get ⟨4, by decide⟩) = 2 := by
  have h := slide_to_value_change [(53 : ℚ), 12, 0, 0, 0, 0]
    (by decide) 4 (by decide)
  exact ⟨h.1, by decide⟩

/-- Claim C6: the slide is idempotent. For a descending-sorted expression
column, sliding the index obtained from a previous slide yields that same
index: slid indices are fixed points of the slide operation. -/
theorem slide_idempotent (e : List ℚ) (hs : e.Sorted (· ≥ ·))
    (i : Nat) (hi : i < e.length)
    (hlt : mhg_slide e (e.get ⟨i, hi⟩) < e.length) :
    mhg_slide e (e.get ⟨mhg_slide e (e.get ⟨i, hi⟩), hlt⟩)
      = mhg_slide e (e.get ⟨i, hi⟩) := by
  have h := slide_to_value_change e hs i hi
  rcases h.2.2.1 with ⟨hl, hval⟩
  have : e.get ⟨mhg_slide e (e.get ⟨i, hi⟩), hlt⟩ = e.get ⟨i, hi⟩ := hval
  rw [this]

/-- Witness for C6 on `[53, 12, 0, 0, 0, 0]` (the docstring example scaled by ten) with raw index 4 (slid
index 2): sliding the already-slid index yields 2 again. -/
theorem slide_idempotent_witness :
    mhg_slide [(53 : ℚ), 12, 0, 0, 0, 0]
      (([(53 : ℚ), 12, 0, 0, 0, 0]).get
        ⟨mhg_slide [(53 : ℚ), 12, 0, 0, 0, 0]
          (([(53 : ℚ), 12, 0, 0, 0, 0]).get ⟨4, by decide⟩), by decide⟩)
      = mhg_slide [(53 : ℚ), 12, 0, 0, 0, 0]
          (([(53 : ℚ), 12, 0, 0, 0, 0]).get ⟨4, by decide⟩) :=
  slide_idempotent [(53 : ℚ), 12, 0, 0, 0, 0] (by decide) 4 (by decide)
    (by decide)

/-- Claim C1: the code violates it.  `pair_test` never computes a
hypergeometric record: its body returns the empty table for every input, so
even when the cell data admits a valid gene pair the returned table has no
rows, contradicting the pair-test docstring that promises one `HG_stat` row
per gene pair. -/
theorem pair_test_always_empty :
    ∀ (cells : CellTable) (singleton : List (TestRow × ℚ))
      (cl : Label) (ratio_min : ℚ),
      pair_test cells singleton cl ratio_min = [] :=
  fun _ _ _ _ => rfl

/-- Claim C9: `find_TP_TN` returns `None` and leaves all three argument
tables completely unchanged: no column is appended and no field of any
argument is modified. -/
theorem find_TP_TN_returns_none_unchanged :
    ∀ (cells : CellTable) (singleton : List (TestRow × ℚ))
      (pair : List PairTestRow) (cl : Label),
      find_TP_TN cells singleton pair cl = (none, cells, singleton, pair) :=
  fun _ _ _ _ => rfl

/-- Claim C8: the code violates it.  `singleton_test` performs no input
validation whatsoever: for every behaviour of the two external test oracles
and every input — in particular for `badCells` with cluster of interest 99
(absent from the cluster column, so the cluster of interest is empty),
X = -5 (below 0) and L = -7 (below X) — the embedded function returns an
`ok` result table instead of failing with an invalid-input error.  The
docstring `Raises: ValueError` and the module TODO `Raise some exceptions!`
record the intent the claim describes. -/
theorem singleton_test_never_fails :
    (∀ (xl_test : List Nat → Int → Int → ℚ × Nat × ℚ)
       (t_test : List ℚ → List ℚ → ℚ × ℚ)
       (cells : CellTable) (cl : Label) (X L : Int),
       (singleton_test xl_test t_test cells cl X L).isOk = true) ∧
    (∀ (xl_test : List Nat → Int → Int → ℚ × Nat × ℚ)
       (t_test : List ℚ → List ℚ → ℚ × ℚ),
       (singleton_test xl_test t_test badCells 99 (-5) (-7)).isOk = true) :=
  ⟨fun _ _ _ _ _ _ => rfl, fun _ _ => rfl⟩

/-- Claim C10 counterexample: a supplied K of 1 is passed through to the
cluster runs unchanged, so a downstream run can observe K = 1, outside
{2, 3, 4}; the claimed consequence fails. -/
theorem resolve_K_one_counterexample :
    resolve_K (some 1) = 1 ∧
    ¬(resolve_K (some 1) = 2 ∨ resolve_K (some 1) = 3 ∨ resolve_K (some 1) = 4) := by
  decide

/-- Claim C10 (amended): a supplied K above 4 is clamped to 4 and a missing
K defaults to 2; consequently every downstream cluster run observes K in
{2, 3, 4} provided any supplied K is at least 2 (a supplied K below 2 is
passed through unchanged). -/
theorem resolve_K_amended :
    (∀ v : Int, 4 < v → resolve_K (some v) = 4) ∧
    resolve_K none = 2 ∧
    (∀ k : Option Int, (∀ v, k = some v → 2 ≤ v) →
      resolve_K k = 2 ∨ resolve_K k = 3 ∨ resolve_K k = 4) := by
  refine ⟨fun v hv => ?_, rfl, fun k hk => ?_⟩
  · simp [resolve_K, if_pos hv]
  · match k with
    | none => exact Or.inl rfl
    | some v =>
        have h2 : 2 ≤ v := hk v rfl
        simp only [resolve_K]
        split
        · omega
        · omega

/-- Witness for the amended C10: K = 7 is clamped to 4, a missing K yields
2, and the supplied value 3 (at least 2) lands in {2, 3, 4}. -/
theorem resolve_K_amended_witness :
    resolve_K (some 7) = 4 ∧ resolve_K none = 2 ∧
    (resolve_K (some 3) = 2 ∨ resolve_K (some 3) = 3 ∨ resolve_K (some 3) = 4) := by
  have h := resolve_K_amended
  refine ⟨h.1 7 (by decide), h.2.1, h.2.2 (some 3) ?_⟩
  intro v hv
  injection hv with hv3
  omega

theorem map_enum_succ {β : Type} (l : List β) :
    l.enum.map (fun p => p.1 + 1) = List.range' 1 l.length := by
  have h1 : l.enum.map (fun p => p.1 + 1)
      = (l.enum.map Prod.fst).map (fun x => x + 1) := by
    rw [List.map_map]
    rfl
  rw [h1, List.enum_map_fst, List.range'_eq_map_range]
  simp [Nat.add_comm]

theorem take_range' :
    ∀ (m n s : Nat), (List.range' s m).take n = List.range' s (min n m)
  | 0, n, s => by simp
  | m + 1, 0, s => by simp
  | m + 1, n + 1, s => by
      rw [List.range'_succ, List.take_succ_cons, take_range' m n (s + 1),
        Nat.succ_min_succ, List.range'_succ]

theorem pair_ranked_fst (t : List PairHG) :
    (pair_ranked t).map Prod.fst = List.insertionSort pairLe t := by
  unfold pair_ranked
  rw [List.map_map]
  have h : (Prod.fst ∘ fun p : Nat × PairHG => (p.2, p.1 + 1)) = Prod.snd := rfl
  rw [h, List.enum_map_snd]

theorem pair_ranked_snd (t : List PairHG) :
    (pair_ranked t).map Prod.snd = List.range' 1 t.length := by
  unfold pair_ranked
  rw [List.map_map]
  have h : (Prod.snd ∘ fun p : Nat × PairHG => (p.2, p.1 + 1))
      = fun p : Nat × PairHG => p.1 + 1 := rfl
  rw [h, map_enum_succ, List.length_insertionSort]

/-- Claim C5 counterexample: the tie clause fails on the code.  The sort at
`__main__.py` line 325 is `sort_values(by=HG_pval, ascending=True)` with
pandas' default quicksort, which is not stable, so the program guarantees
only `sort_values_pairs_contract` for the row order.  Here a sort outcome
satisfying that entire contract (ascending in the p-value, a permutation of
the input) puts the two equal-p-value rows opposite to their
insertion/discovery order, so the tied rows of the returned ranked table
are not in insertion order: the claim's tie-break clause does not hold of
the program's sort. -/
theorem pair_tie_counterexample :
    sort_values_pairs_contract
      (fun _ => [⟨"E", "F", 3, 3⟩, ⟨"C", "D", 3, 3⟩])
      [⟨"C", "D", 3, 3⟩, ⟨"E", "F", 3, 3⟩] ∧
    (⟨"C", "D", 3, 3⟩ : PairHG).HG_pval = (⟨"E", "F", 3, 3⟩ : PairHG).HG_pval ∧
    ¬ List.Sublist [(⟨"C", "D", 3, 3⟩ : PairHG), ⟨"E", "F", 3, 3⟩]
        ((pair_ranked_with (fun _ => [⟨"E", "F", 3, 3⟩, ⟨"C", "D", 3, 3⟩])
          [⟨"C", "D", 3, 3⟩, ⟨"E", "F", 3, 3⟩]).map Prod.fst) := by
  unfold sort_values_pairs_contract
  decide

/-- Claim C5 (amended): for every row order the library sort is permitted
to produce (ascending in HG_pval and a permutation of the input — pandas'
default quicksort is deterministic for a given input but not stable), the
returned pair table is sorted ascending by hypergeometric p-value with more
significant rows first, its rows are exactly the computed pair rows, and
the integer ranks attached are 1, 2, 3, ... in table order; the relative
order of rows with equal p-values is implementation-defined rather than the
insertion/discovery order. -/
theorem pair_table_ordering_contract
    (s : List PairHG → List PairHG) (t : List PairHG)
    (hs : sort_values_pairs_contract s t) :
    ((pair_ranked_with s t).map Prod.fst).Sorted pairLe ∧
    (pair_ranked_with s t).map Prod.snd = List.range' 1 t.length ∧
    ((pair_ranked_with s t).map Prod.fst).Perm t := by
  obtain ⟨hsort, hperm⟩ := hs
  have hfst : (pair_ranked_with s t).map Prod.fst = s t := by
    unfold pair_ranked_with
    rw [List.map_map]
    have h : (Prod.fst ∘ fun p : Nat × PairHG => (p.2, p.1 + 1)) = Prod.snd := rfl
    rw [h, List.enum_map_snd]
  refine ⟨?_, ?_, ?_⟩
  · rw [hfst]
    exact hsort
  · unfold pair_ranked_with
    rw [List.map_map]
    have h : (Prod.snd ∘ fun p : Nat × PairHG => (p.2, p.1 + 1))
        = fun p : Nat × PairHG => p.1 + 1 := rfl
    rw [h, map_enum_succ, hperm.length_eq]
  · rw [hfst]
    exact hperm

/-- Witness for the amended C5: instantiating the sort with one conforming
behaviour (the stable sort) on `pair_example`, the attached ranks come out
1, 2, 3. -/
theorem pair_table_ordering_contract_witness :
    (pair_ranked_with (List.insertionSort pairLe) pair_example).map Prod.snd
      = [1, 2, 3] := by
  have h := pair_table_ordering_contract (List.insertionSort pairLe) pair_example
    ⟨List.sorted_insertionSort pairLe pair_example,
     List.perm_insertionSort pairLe pair_example⟩
  rw [h.2.1]
  rfl

/-- Claim C7: trimming a table to N rows returns exactly its first
min(N, row-count) rows — position j of the trimmed table holds position j of
the untrimmed table, and a table with at most N rows is returned whole — so
on the ranked pair table the retained rows are exactly those carrying ranks
1 .. min(N, row-count), the highest-ranked rows, in unchanged order; a
missing Trim option defaults to 2000. -/
theorem trim_returns_top_rows {α : Type} (n : Nat) (t : List α) (p : List PairHG) :
    (head_trim n t).length = min n t.length ∧
    (∀ j (hj : j < (head_trim n t).length),
      ∃ hjt : j < t.length, (head_trim n t).get ⟨j, hj⟩ = t.get ⟨j, hjt⟩) ∧
    (t.length ≤ n → head_trim n t = t) ∧
    (head_trim n (pair_ranked p)).map Prod.snd = List.range' 1 (min n p.length) ∧
    resolve_trim none = 2000 := by
  refine ⟨List.length_take n t, ?_, fun h => List.take_of_length_le h, ?_, rfl⟩
  · intro j hj
    have hmin : j < min n t.length := by
      have h := hj
      rw [head_trim, List.length_take] at h
      exact h
    have hjt : j < t.length := lt_of_lt_of_le hmin (min_le_right n t.length)
    have hjn : j < n := lt_of_lt_of_le hmin (min_le_left n t.length)
    refine ⟨hjt, ?_⟩
    simp [head_trim, List.get_eq_getElem]
  · rw [head_trim, List.map_take, pair_ranked_snd, take_range']

/-- Witness for C7: a three-row table trimmed to 5 comes back whole, and the
ranked `pair_example` table trimmed to 2 retains exactly ranks 1, 2. -/
theorem trim_returns_top_rows_witness :
    head_trim 5 [(10 : ℤ), 20, 30] = [10, 20, 30] ∧
    (head_trim 2 (pair_ranked pair_example)).map Prod.snd = [1, 2] := by
  have h1 := trim_returns_top_rows 5 [(10 : ℤ), 20, 30] pair_example
  have h2 := trim_returns_top_rows 2 ([] : List ℤ) pair_example
  refine ⟨h1.2.2.1 (by decide), ?_⟩
  rw [h2.2.2.2.1]
  rfl

theorem sing_fin_length (t : List SingRecord) : (sing_fin t).length = t.length := by
  simp [sing_fin, sing_fc_ranked, sing_hg_ranked, List.enum_length,
    List.length_insertionSort]

/-- Claim C3: the final integer rank of each singleton gene averages its
rank by mHG significance ascending (the `mHG_stat` column, the minimal
hypergeometric p-value found by the XL-mHG test: `hgrank` is the 1-based
position in the `mHG_stat`-ascending sort) with its rank by fold change
descending (`fcrank`, the 1-based position in the fold-change-descending
sort); the combined score `finrank = (hgrank + fcrank)/2` is re-ranked by
sorting on it, and the resulting integer rank column is 1, 2, ..., n in
table order: a total order with no duplicate integer ranks across the full
singleton table. -/
theorem sing_rank_fusion (t : List SingRecord) :
    (sing_ranked t).map RankedSing.rank = List.range' 1 t.length ∧
    ((sing_ranked t).map RankedSing.finrank).Sorted (· ≤ ·) ∧
    (∀ r ∈ sing_ranked t, r.finrank = ((r.hgrank : ℚ) + (r.fcrank : ℚ)) / 2) ∧
    ((sing_ranked t).map (fun r => (r.row, r.hgrank))).Perm (sing_hg_ranked t) ∧
    ((sing_ranked t).map (fun r => (r.row, r.hgrank, r.fcrank))).Perm
      (sing_fc_ranked t) := by
  have strip_core : ∀ {γ : Type} (f : RankedSing → γ),
      (∀ r k, f { r with rank := k } = f r) →
      (sing_ranked t).map f
        = (List.insertionSort finLe (sing_fin t)).map f := by
    intro γ f hf
    unfold sing_ranked
    rw [List.map_map]
    have h : (f ∘ fun p : Nat × RankedSing => { p.2 with rank := p.1 + 1 })
        = f ∘ Prod.snd := by
      funext p
      exact hf p.2 (p.1 + 1)
    rw [h, ← List.map_map, List.enum_map_snd]
  have e_fin : (sing_fin t).map (fun r => (r.row, r.hgrank, r.fcrank))
      = sing_fc_ranked t := by
    unfold sing_fin
    rw [List.map_map]
    have h : ((fun r : RankedSing => (r.row, r.hgrank, r.fcrank))
        ∘ fun q : SingRecord × Nat × Nat =>
          ({ row := q.1, hgrank := q.2.1, fcrank := q.2.2,
             finrank := ((q.2.1 : ℚ) + (q.2.2 : ℚ)) / 2, rank := 0 } : RankedSing))
        = id := rfl
    rw [h, List.map_id]
  have e_hg : (sing_fin t).map (fun r => (r.row, r.hgrank))
      = List.insertionSort fcGe (sing_hg_ranked t) := by
    unfold sing_fin sing_fc_ranked
    rw [List.map_map, List.map_map]
    have h : ((fun r : RankedSing => (r.row, r.hgrank))
        ∘ fun q : SingRecord × Nat × Nat =>
          ({ row := q.1, hgrank := q.2.1, fcrank := q.2.2,
             finrank := ((q.2.1 : ℚ) + (q.2.2 : ℚ)) / 2, rank := 0 } : RankedSing))
        = fun q : SingRecord × Nat × Nat => (q.1, q.2.1) := rfl
    rw [h]
    have h2 : ((fun q : SingRecord × Nat × Nat => (q.1, q.2.1))
        ∘ fun p : Nat × (SingRecord × Nat) => (p.2.1, p.2.2, p.1 + 1))
        = Prod.snd := rfl
    rw [h2, List.enum_map_snd]
  refine ⟨?_, ?_, ?_, ?_, ?_⟩
  · unfold sing_ranked
    rw [List.map_map]
    have h : (RankedSing.rank ∘ fun p : Nat × RankedSing => { p.2 with rank := p.1 + 1 })
        = fun p : Nat × RankedSing => p.1 + 1 := rfl
    rw [h, map_enum_succ, List.length_insertionSort, sing_fin_length]
  · rw [strip_core RankedSing.finrank (fun _ _ => rfl)]
    exact List.Pairwise.map RankedSing.finrank (fun _ _ hab => hab)
      (List.sorted_insertionSort finLe (sing_fin t))
  · intro r hr
    unfold sing_ranked at hr
    rcases List.mem_map.mp hr with ⟨p, hp, rfl⟩
    have hmem : p.2 ∈ List.insertionSort finLe (sing_fin t) := by
      have h := List.mem_map_of_mem Prod.snd hp
      rwa [List.enum_map_snd] at h
    have hmem2 : p.2 ∈ sing_fin t := (List.mem_insertionSort finLe).mp hmem
    unfold sing_fin at hmem2
    rcases List.mem_map.mp hmem2 with ⟨q, _, hq2⟩
    rw [← hq2]
  · rw [strip_core (fun r => (r.row, r.hgrank)) (fun _ _ => rfl)]
    have hperm := (List.perm_insertionSort finLe (sing_fin t)).map
      (fun r : RankedSing => (r.row, r.hgrank))
    rw [e_hg] at hperm
    exact hperm.trans (List.perm_insertionSort fcGe (sing_hg_ranked t))
  · rw [strip_core (fun r => (r.row, r.hgrank, r.fcrank)) (fun _ _ => rfl)]
    have hperm := (List.perm_insertionSort finLe (sing_fin t)).map
      (fun r : RankedSing => (r.row, r.hgrank, r.fcrank))
    rw [e_fin] at hperm
    exact hperm

/-- Witness for C3 on `sing_example` (mHG statistics 1, 3, 2 and fold
changes 5, 9, 1): the final integer rank column is exactly 1, 2, 3. -/
theorem sing_rank_fusion_witness :
    (sing_ranked sing_example).map RankedSing.rank = [1, 2, 3] := by
  have h := sing_rank_fusion sing_example
  rw [h.1]
  rfl

/-- Claim C4: with an abbreviation request, the candidate gene list used for
size-3 and size-4 combinations is exactly the 150 first genes of the
singleton table sorted ascending by mHG statistic — the top-150 by singleton
significance: whenever the table holds at least 150 genes the list has
exactly 150 entries, every retained row is at least as significant as every
dropped row, and every gene of every enumerated triple or quadruple belongs
to that top-150 list, independent of the total gene count.  (The triple and
quadruple generators themselves are modelled from the spec in
`combination_product`; see its doc comment.) -/
theorem abbrev_restricts_to_top150
    (ab : List String) (xl : List XRow) (hab : 0 < ab.length)
    (hG : 150 ≤ xl.length) :
    trips_list ab xl = some (((xl_sorted xl).map XRow.gene_1).take 150) ∧
    (((xl_sorted xl).map XRow.gene_1).take 150).length = 150 ∧
    (∀ a ∈ (xl_sorted xl).take 150, ∀ b ∈ (xl_sorted xl).drop 150,
      a.mHG_stat ≤ b.mHG_stat) ∧
    (∀ k, k = 3 ∨ k = 4 →
      ∀ tup ∈ combination_product k (((xl_sorted xl).map XRow.gene_1).take 150),
        tup.length = k ∧
        ∀ g ∈ tup, g ∈ ((xl_sorted xl).map XRow.gene_1).take 150) := by
  refine ⟨?_, ?_, ?_, ?_⟩
  · unfold trips_list
    rw [if_pos hab]
  · simp only [List.length_take, List.length_map, xl_sorted,
      List.length_insertionSort]
    omega
  · have hsort : (xl_sorted xl).Pairwise xlLe :=
      List.sorted_insertionSort xlLe xl
    rw [← List.take_append_drop 150 (xl_sorted xl), List.pairwise_append] at hsort
    exact hsort.2.2
  · intro k _ tup htup
    rcases List.mem_sublistsLen.mp htup with ⟨hsub, hlen⟩
    exact ⟨hlen, fun g hg => hsub.subset hg⟩

set_option maxRecDepth 4000 in
/-- Witness for C4: on a 150-row singleton table and a nonempty abbreviation
request, the candidate list exists and has exactly 150 entries. -/
theorem abbrev_restricts_to_top150_witness :
    trips_list ["3"] xl_example
      = some (((xl_sorted xl_example).map XRow.gene_1).take 150) ∧
    (((xl_sorted xl_example).map XRow.gene_1).take 150).length = 150 := by
  have h := abbrev_restricts_to_top150 ["3"] xl_example (by decide)
    (by decide)
  exact ⟨h.1, h.2.1⟩

end HGMD
